import Mathlib

/-!
Verification of the arcade-rs game core against its specification.

The Rust source is shallowly embedded: `f64` values are modelled as rationals
(reals where an irrational constant such as `1/√2` occurs), fallible or
panicking operations return `Option`, the per-frame mutation of a struct is
explicit state passing, and the platform event queue / random number generator
are passed in as explicit inputs.
-/

namespace Arcade

/-- Axis-aligned rectangle `{x, y, w, h}` in logical pixels.  The module
`src/phi/data.rs` defining it is not present in this snapshot; its field
layout is fixed by every use site (`gfx.rs`, the views). -/
structure Rectangle where
  x : ℚ
  y : ℚ
  w : ℚ
  h : ℚ
deriving DecidableEq

/-- Modelled from the spec: `Rectangle::contains` of the missing
`src/phi/data.rs` — true iff `other.x ≥ x`, `other.y ≥ y`,
`other.x + other.w ≤ x + w` and `other.y + other.h ≤ y + h`. -/
def Rectangle.contains (self other : Rectangle) : Bool :=
  decide (self.x ≤ other.x) && decide (self.y ≤ other.y) &&
  decide (other.x + other.w ≤ self.x + self.w) &&
  decide (other.y + other.h ≤ self.y + self.h)

/-- Modelled from the spec: `Rectangle::move_inside` of the missing
`src/phi/data.rs` — translate the rectangle's position (not size) so it lies
fully inside `bound`, clamping each axis independently; fails if
`w > bound.w` or `h > bound.h`. -/
def Rectangle.move_inside (self bound : Rectangle) : Option Rectangle :=
  if bound.w < self.w ∨ bound.h < self.h then none
  else some { self with
    x := max bound.x (min self.x (bound.x + bound.w - self.w)),
    y := max bound.y (min self.y (bound.y + bound.h - self.h)) }

/-- `Sprite` from `src/phi/gfx.rs`: an immutable view (source sub-rectangle)
over a shared, ref-counted texture; the `Rc<RefCell<Texture>>` handle is
modelled by an identifier. -/
structure Sprite where
  tex : Nat
  src : Rectangle
deriving DecidableEq

/-- `Sprite::region` from `src/phi/gfx.rs`: derive a sub-sprite whose source
rectangle is `rect` translated by the parent's source origin; `none` unless
the parent's source rectangle contains the translated rectangle. -/
def Sprite.region (self : Sprite) (rect : Rectangle) : Option Sprite :=
  let new_src : Rectangle :=
    { x := rect.x + self.src.x, y := rect.y + self.src.y, w := rect.w, h := rect.h }
  if self.src.contains new_src then
    some { tex := self.tex, src := new_src }
  else
    none

/-- `AnimatedSprite` from `src/phi/gfx.rs`: ordered frames, a per-frame
display duration (`frame_delay`, seconds) and the accumulated elapsed time. -/
structure AnimatedSprite where
  sprites : List Sprite
  frame_delay : ℚ
  current_time : ℚ
deriving DecidableEq

/-- `AnimatedSprite::new`: wraps the frames with the given `frame_delay` and a
current time of 0; the source has no guard on `frame_delay`. -/
def AnimatedSprite.new (sprites : List Sprite) (frame_delay : ℚ) : AnimatedSprite :=
  { sprites := sprites, frame_delay := frame_delay, current_time := 0 }

/-- `AnimatedSprite::frame_count`. -/
def AnimatedSprite.frame_count (self : AnimatedSprite) : Nat :=
  self.sprites.length

/-- `AnimatedSprite::new_with_fps`; the `panic!` on `fps == 0.0` is modelled
as `none`. -/
def AnimatedSprite.new_with_fps (sprites : List Sprite) (fps : ℚ) : Option AnimatedSprite :=
  if fps = 0 then none
  else some (AnimatedSprite.new sprites (1 / fps))

/-- `AnimatedSprite::set_frame_delay`. -/
def AnimatedSprite.set_frame_delay (self : AnimatedSprite) (frame_delay : ℚ) : AnimatedSprite :=
  { self with frame_delay := frame_delay }

/-- `AnimatedSprite::set_fps`; the `panic!` on `fps == 0.0` is modelled as
`none`. -/
def AnimatedSprite.set_fps (self : AnimatedSprite) (fps : ℚ) : Option AnimatedSprite :=
  if fps = 0 then none
  else some (self.set_frame_delay (1 / fps))

/-- `AnimatedSprite::add_time`: accumulate `dt`; if the result is negative,
reset the elapsed time to `(frame_count - 1) * frame_delay`. -/
def AnimatedSprite.add_time (self : AnimatedSprite) (dt : ℚ) : AnimatedSprite :=
  let t := self.current_time + dt
  if t < 0 then
    { self with current_time := ((self.frame_count - 1 : ℕ) : ℚ) * self.frame_delay }
  else
    { self with current_time := t }

/-- The frame index computed by `Renderable for AnimatedSprite::render`:
`(current_time / frame_delay) as usize % frame_count`.  Rust's f64-to-usize
cast truncates toward zero and clamps negative values to 0, which for the
quotient is `Int.toNat ∘ floor` on the nonnegative range and `0` below it. -/
def AnimatedSprite.current_frame (self : AnimatedSprite) : Nat :=
  (⌊self.current_time / self.frame_delay⌋).toNat % self.frame_count

/-- The keys tracked by the `struct_events!` invocation in `src/phi/mod.rs`:
`Escape`, `Up`, `Down`, `Left`, `Right`, `Space`, `Return`. -/
inductive Key where
  | escape
  | up
  | down
  | left
  | right
  | space
  | enter
deriving DecidableEq

/-- The platform events the generated `Events::pump` inspects: key-down and
key-up with a key identity, a window resize, the quit signal, and anything
else (ignored). -/
inductive SdlEvent where
  | keyDown (k : Key)
  | keyUp (k : Key)
  | windowResized
  | quit
  | other
deriving DecidableEq

/-- `ImmediateEvents` from `src/phi/events.rs`: the per-frame edge snapshot —
`some true` means pressed this frame, `some false` released this frame,
`none` no edge — plus the frame-scoped resize payload and quit flag. -/
structure ImmediateEvents where
  resize : Option (Nat × Nat)
  keyEdge : Key → Option Bool
  quit : Bool

/-- `ImmediateEvents::new`: nothing has happened yet. -/
def ImmediateEvents.new : ImmediateEvents :=
  { resize := none, keyEdge := fun _ => none, quit := false }

/-- `Events` from `src/phi/events.rs`: the edge snapshot `now` plus the
persistent held-state table.  The `EventPump` field is the external input
source; its drained events are passed to `pump` explicitly. -/
structure Events where
  now : ImmediateEvents
  held : Key → Bool

/-- `Events::new`: every key starts not pressed. -/
def Events.new : Events :=
  { now := ImmediateEvents.new, held := fun _ => false }

/-- One arm of the `match event` inside `Events::pump`: a key-down sets the
edge to `some true` only on the transition from not-held to held and sets the
held-state; a key-up sets the edge to `some false` and clears the held-state
unconditionally; a resize records the renderer's current output size (latest
wins); the quit event sets the frame-scoped quit flag; anything else is
ignored. -/
def Events.processEvent (outputSize : Nat × Nat) (s : Events) (e : SdlEvent) : Events :=
  match e with
  | SdlEvent.keyDown k =>
      let s1 :=
        if s.held k = false then
          { s with now := { s.now with keyEdge := Function.update s.now.keyEdge k (some true) } }
        else s
      { s1 with held := Function.update s1.held k true }
  | SdlEvent.keyUp k =>
      { s with
        now := { s.now with keyEdge := Function.update s.now.keyEdge k (some false) },
        held := Function.update s.held k false }
  | SdlEvent.windowResized =>
      { s with now := { s.now with resize := some outputSize } }
  | SdlEvent.quit =>
      { s with now := { s.now with quit := true } }
  | SdlEvent.other => s

/-- `Events::pump`: reset the edge snapshot to "nothing happened", then
process every pending platform event of this tick in order. -/
def Events.pump (s : Events) (outputSize : Nat × Nat) (events : List SdlEvent) : Events :=
  events.foldl (Events.processEvent outputSize) { s with now := ImmediateEvents.new }

/-- Whether a single platform event is a key-down (`some true`) or key-up
(`some false`) for key `k`. -/
def keyEdgeOf (k : Key) : SdlEvent → Option Bool
  | SdlEvent.keyDown q => if q = k then some true else none
  | SdlEvent.keyUp q => if q = k then some false else none
  | SdlEvent.windowResized => none
  | SdlEvent.quit => none
  | SdlEvent.other => none

/-- The last key-down/key-up event for key `k` in a batch of platform events,
as `some true` / `some false` (`none` if the batch never touches `k`). -/
def lastKeyEdge (k : Key) : List SdlEvent → Option Bool
  | [] => none
  | e :: rest =>
      match lastKeyEdge k rest with
      | some v => some v
      | none => keyEdgeOf k e

/-- `ViewAction` from `src/phi/mod.rs`: the directive a view's `render`
returns to the game loop.  Views are identified by numbers. -/
inductive ViewAction where
  | none
  | quit
  | changeView (v : Nat)
deriving DecidableEq

/-- The calls the game loop makes on the shared context and the views, in the
order `spawn` makes them. -/
inductive LoopCall where
  | pump
  | render (v : Nat)
  | present
  | pause (v : Nat)
  | resume (v : Nat)
deriving DecidableEq

/-- The accepted-frame iterations of the `loop` in `spawn`
(`src/phi/mod.rs`): each iteration pumps the events and calls `render` on the
current view; on `None` the frame is presented and the loop continues with
the same view; on `Quit` the view is paused and the loop breaks; on
`ChangeView` the outgoing view is paused, the new view becomes current and is
resumed, and no `present` happens this tick.  The script lists the directive
each successive `render` call returns. -/
def loopRun : Nat → List ViewAction → List LoopCall
  | _, [] => []
  | v, a :: rest =>
      LoopCall.pump :: LoopCall.render v ::
        match a with
        | ViewAction.none => LoopCall.present :: loopRun v rest
        | ViewAction.quit => [LoopCall.pause v]
        | ViewAction.changeView w => LoopCall.pause v :: LoopCall.resume w :: loopRun w rest

/-- `spawn` resumes the initial view once before entering the loop. -/
def spawnTrace (v : Nat) (script : List ViewAction) : List LoopCall :=
  LoopCall.resume v :: loopRun v script

/-- The prefix of a directive script the loop actually executes: everything
up to and including the first `Quit`. -/
def executedActions : List ViewAction → List ViewAction
  | [] => []
  | a :: rest =>
      match a with
      | ViewAction.quit => [ViewAction.quit]
      | a' => a' :: executedActions rest

/-- `PLAYER_SPEED` from `src/views/game.rs`, in pixels per second.  The ship
movement involves `1/√2`, so this part of the code is modelled over `ℝ`. -/
def PLAYER_SPEED : ℝ := 180

/-- The `diagonal` flag computed in `ShipView::render`:
`(key_up ^ key_down) && (key_left ^ key_right)`. -/
def diagonal (ku kd kl kr : Bool) : Bool :=
  (xor ku kd) && (xor kl kr)

/-- The `moved` distance computed in `ShipView::render`:
`(if diagonal { 1.0 / 2.0f64.sqrt() } else { 1.0 }) * PLAYER_SPEED * elapsed`. -/
noncomputable def moved (ku kd kl kr : Bool) (elapsed : ℝ) : ℝ :=
  (if diagonal ku kd kl kr then 1 / Real.sqrt 2 else 1) * PLAYER_SPEED * elapsed

/-- The horizontal delta `dx` computed in `ShipView::render` from the held
states of the left and right keys. -/
noncomputable def shipDx (ku kd kl kr : Bool) (elapsed : ℝ) : ℝ :=
  match kl, kr with
  | true, true => 0
  | false, false => 0
  | true, false => -(moved ku kd kl kr elapsed)
  | false, true => moved ku kd kl kr elapsed

/-- The vertical delta `dy` computed in `ShipView::render` from the held
states of the up and down keys. -/
noncomputable def shipDy (ku kd kl kr : Bool) (elapsed : ℝ) : ℝ :=
  match ku, kd with
  | true, true => 0
  | false, false => 0
  | true, false => -(moved ku kd kl kr elapsed)
  | false, true => moved ku kd kl kr elapsed

/-- `BULLET_SPEED` from `src/views/game.rs`, in pixels per second. -/
def BULLET_SPEED : ℚ := 240

/-- `BULLET_W` from `src/views/game.rs`. -/
def BULLET_W : ℚ := 8

/-- `BULLET_H` from `src/views/game.rs`. -/
def BULLET_H : ℚ := 4

/-- `RectBullet` from `src/views/game.rs`: the straight bullet, a rectangle
translating at constant horizontal speed. -/
structure RectBullet where
  rect : Rectangle
deriving DecidableEq

/-- `Bullet for RectBullet::update`: advance `rect.x` by `BULLET_SPEED * dt`;
delete the bullet (`none`) if the new `rect.x` exceeds the screen width `w`
(taken from `phi.output_size()`). -/
def RectBullet.update (self : RectBullet) (w : ℚ) (dt : ℚ) : Option RectBullet :=
  let rect' := { self.rect with x := self.rect.x + BULLET_SPEED * dt }
  if rect'.x > w then none
  else some { rect := rect' }

/-- A sequence of `update` calls on a straight bullet, one per frame with the
given elapsed times, with the filter-map pruning of the view: once an update
returns `none` the bullet is gone. -/
def RectBullet.updateSeq (self : RectBullet) (w : ℚ) : List ℚ → Option RectBullet
  | [] => some self
  | dt :: rest =>
      match self.update w dt with
      | none => none
      | some b => b.updateSeq w rest

/-- `ASTEROID_SIDE` from `src/views/game.rs`. -/
def ASTEROID_SIDE : ℚ := 96

/-- `Asteroid` from `src/views/game.rs`: an animated sprite entity with a
bounding rectangle and a horizontal velocity. -/
structure Asteroid where
  sprite : AnimatedSprite
  rect : Rectangle
  vel : ℚ

/-- `Asteroid::reset`: re-randomize the animation rate (fps in `[10,30)`),
place the rectangle at the right edge `x = w` with `y` random in
`[0, h - ASTEROID_SIDE)`, and re-randomize the velocity into `[50,150)`.
The three `rand::random::<f64>()` draws (each in `[0,1)`) are the explicit
inputs `rFps`, `rY`, `rVel`; the `.abs()` calls of the source are kept.
`set_fps` panics on a zero rate, hence the `Option`. -/
def Asteroid.reset (self : Asteroid) (w h : ℚ) (rFps rY rVel : ℚ) : Option Asteroid :=
  (self.sprite.set_fps (|rFps| * 20 + 10)).map fun sprite' =>
    { sprite := sprite',
      rect := { w := ASTEROID_SIDE, h := ASTEROID_SIDE, x := w, y := |rY| * (h - ASTEROID_SIDE) },
      vel := |rVel| * 100 + 50 }

/-- `Asteroid::update`: move left by `dt * vel`, advance the animation, and
reset once `rect.x < -ASTEROID_SIDE`.  The screen size `(w, h)` and the
random draws a reset would make are explicit inputs. -/
def Asteroid.update (self : Asteroid) (w h : ℚ) (rFps rY rVel : ℚ) (dt : ℚ) : Option Asteroid :=
  let movedA : Asteroid :=
    { self with
      rect := { self.rect with x := self.rect.x - dt * self.vel },
      sprite := self.sprite.add_time dt }
  if movedA.rect.x < -ASTEROID_SIDE then movedA.reset w h rFps rY rVel
  else some movedA

/-- `MainMenuView::new_with_backgrounds` starts with `selected = 0`. -/
def mainMenuInitialSelected : ℤ := 0

/-- `MainMenuView::new_with_backgrounds` builds exactly two actions
("New Game" and "Quit"). -/
def mainMenuActionsLen : ℤ := 2

/-- The effect of one `MainMenuView::render` call on the `selected` index
(`src/views/main_menu.rs`): the quit/escape and space/return early returns
leave it unchanged; otherwise a `key_up` edge decrements it and wraps a
negative result to `len - 1`, then a `key_down` edge increments it and wraps
a result `≥ len` to `0`.  The `i8` arithmetic is modelled over `ℤ`. -/
def menuSelectedAfterRender (quitFlag : Bool)
    (escEdge spaceEdge returnEdge upEdge downEdge : Option Bool)
    (len selected : ℤ) : ℤ :=
  if quitFlag = true ∨ escEdge = some true then selected
  else if spaceEdge = some true ∨ returnEdge = some true then selected
  else
    let s1 :=
      if upEdge = some true then
        let s := selected - 1
        if s < 0 then len - 1 else s
      else selected
    if downEdge = some true then
      let s := s1 + 1
      if s ≥ len then 0 else s
    else s1

/-- C3: for all rectangles `A` and `B`, `A.move_inside(B)` returns a value
iff `A.w ≤ B.w` and `A.h ≤ B.h`, and whenever it returns a rectangle `R`,
`R` has the same width and height as `A` and `B.contains(R)` holds. -/
theorem move_inside_spec (A B : Rectangle) :
    ((∃ R, A.move_inside B = some R) ↔ A.w ≤ B.w ∧ A.h ≤ B.h) ∧
    (∀ R, A.move_inside B = some R →
      R.w = A.w ∧ R.h = A.h ∧ B.contains R = true) := by
  by_cases hcond : B.w < A.w ∨ B.h < A.h
  · constructor
    · constructor
      · rintro ⟨R, hR⟩
        rw [Rectangle.move_inside, if_pos hcond] at hR
        exact absurd hR (by simp)
      · rintro ⟨hw, hh⟩
        rcases hcond with h | h
        · exact absurd hw (not_le.mpr h)
        · exact absurd hh (not_le.mpr h)
    · intro R hR
      rw [Rectangle.move_inside, if_pos hcond] at hR
      exact absurd hR (by simp)
  · push_neg at hcond
    obtain ⟨hw, hh⟩ := hcond
    have hif : ¬ (B.w < A.w ∨ B.h < A.h) := by
      push_neg
      exact ⟨hw, hh⟩
    constructor
    · constructor
      · intro _
        exact ⟨hw, hh⟩
      · intro _
        exact ⟨_, by rw [Rectangle.move_inside, if_neg hif]⟩
    · intro R hR
      rw [Rectangle.move_inside, if_neg hif, Option.some_inj] at hR
      subst hR
      refine ⟨rfl, rfl, ?_⟩
      simp only [Rectangle.contains, Bool.and_eq_true, decide_eq_true_eq]
      have hx1 : B.x ≤ max B.x (min A.x (B.x + B.w - A.w)) := le_max_left _ _
      have hx2 : max B.x (min A.x (B.x + B.w - A.w)) ≤ B.x + B.w - A.w :=
        max_le (by linarith) (min_le_right _ _)
      have hy1 : B.y ≤ max B.y (min A.y (B.y + B.h - A.h)) := le_max_left _ _
      have hy2 : max B.y (min A.y (B.y + B.h - A.h)) ≤ B.y + B.h - A.h :=
        max_le (by linarith) (min_le_right _ _)
      refine ⟨⟨⟨hx1, hy1⟩, ?_⟩, ?_⟩ <;> dsimp only <;> linarith

/-- C3 witness: a concrete 1×1 rectangle at (5,5) is clamped into the 2×2
bound at the origin, landing at (1,1), with containment holding. -/
theorem move_inside_spec_witness :
    ({ x := 5, y := 5, w := 1, h := 1 } : Rectangle).move_inside
        { x := 0, y := 0, w := 2, h := 2 } =
      some { x := 1, y := 1, w := 1, h := 1 } ∧
    (({ x := 1, y := 1, w := 1, h := 1 } : Rectangle).w =
        ({ x := 5, y := 5, w := 1, h := 1 } : Rectangle).w ∧
      ({ x := 1, y := 1, w := 1, h := 1 } : Rectangle).h =
        ({ x := 5, y := 5, w := 1, h := 1 } : Rectangle).h ∧
      ({ x := 0, y := 0, w := 2, h := 2 } : Rectangle).contains
          { x := 1, y := 1, w := 1, h := 1 } = true) :=
  ⟨by rw [Rectangle.move_inside, if_neg (by norm_num)]; norm_num,
   (move_inside_spec { x := 5, y := 5, w := 1, h := 1 }
       { x := 0, y := 0, w := 2, h := 2 }).2
     { x := 1, y := 1, w := 1, h := 1 }
     (by rw [Rectangle.move_inside, if_neg (by norm_num)]; norm_num)⟩

/-- C4: `S.region(R)` yields no value exactly when `R` translated by the
parent's source origin (same width and height) is not contained in `S`'s
source rectangle, and otherwise yields a sprite over the same texture whose
source rectangle is exactly that translated rectangle. -/
theorem region_spec (S : Sprite) (R : Rectangle) :
    (S.region R = none ↔
      S.src.contains
          { x := R.x + S.src.x, y := R.y + S.src.y, w := R.w, h := R.h } = false) ∧
    (∀ S', S.region R = some S' →
      S'.src = { x := R.x + S.src.x, y := R.y + S.src.y, w := R.w, h := R.h } ∧
      S'.tex = S.tex) := by
  cases hc : S.src.contains
      { x := R.x + S.src.x, y := R.y + S.src.y, w := R.w, h := R.h } with
  | false =>
      constructor
      · simp [Sprite.region, hc]
      · intro S' hS'
        rw [Sprite.region] at hS'
        simp only [hc, Bool.false_eq_true, if_false] at hS'
        exact absurd hS' (by simp)
  | true =>
      constructor
      · simp [Sprite.region, hc]
      · intro S' hS'
        rw [Sprite.region] at hS'
        simp only [hc, if_true] at hS'
        rw [Option.some_inj] at hS'
        subst hS'
        exact ⟨rfl, rfl⟩

/-- C4 witness: a 2×2 interior region of a 4×4 sprite at the origin is
derivable and carries exactly the translated source rectangle. -/
theorem region_spec_witness :
    ({ tex := 0, src := { x := 0, y := 0, w := 4, h := 4 } } : Sprite).region
        { x := 1, y := 1, w := 2, h := 2 } =
      some { tex := 0, src := { x := 1, y := 1, w := 2, h := 2 } } ∧
    (({ tex := 0, src := { x := 1, y := 1, w := 2, h := 2 } } : Sprite).src =
        { x := 1 + 0, y := 1 + 0, w := 2, h := 2 } ∧
      ({ tex := 0, src := { x := 1, y := 1, w := 2, h := 2 } } : Sprite).tex = 0) :=
  ⟨by rw [Sprite.region]; norm_num [Rectangle.contains],
   (region_spec { tex := 0, src := { x := 0, y := 0, w := 4, h := 4 } }
       { x := 1, y := 1, w := 2, h := 2 }).2
     { tex := 0, src := { x := 1, y := 1, w := 2, h := 2 } }
     (by rw [Sprite.region]; norm_num [Rectangle.contains])⟩

/-- C6 counterexample: `AnimatedSprite::new` has no guard, so constructing an
animation with a per-frame duration of exactly 0 produces a value (with
`frame_delay = 0`) instead of failing. -/
theorem animated_new_zero_delay_counterexample :
    (AnimatedSprite.new [{ tex := 0, src := { x := 0, y := 0, w := 1, h := 1 } }] 0).frame_delay
      = 0 := rfl

/-- C6 amended: `new_with_fps(frames, fps)` fails exactly when `fps = 0` and
otherwise yields frame duration `1 / fps`; `new(frames, d)` is unguarded and
produces a value with `frame_delay = d` for every `d`, including `d = 0`. -/
theorem new_with_fps_guard (frames : List Sprite) (fps : ℚ) :
    (AnimatedSprite.new_with_fps frames fps = none ↔ fps = 0) ∧
    (∀ a, AnimatedSprite.new_with_fps frames fps = some a → a.frame_delay = 1 / fps) ∧
    (∀ d : ℚ, (AnimatedSprite.new frames d).frame_delay = d) := by
  by_cases h : fps = 0
  · refine ⟨by simp [AnimatedSprite.new_with_fps, h], ?_, fun d => rfl⟩
    intro a ha
    rw [AnimatedSprite.new_with_fps, if_pos h] at ha
    exact absurd ha (by simp)
  · refine ⟨by simp [AnimatedSprite.new_with_fps, h], ?_, fun d => rfl⟩
    intro a ha
    rw [AnimatedSprite.new_with_fps, if_neg h, Option.some_inj] at ha
    subst ha
    rfl

/-- C6 witness: constructing at 2 fps succeeds with frame duration 1/2. -/
theorem new_with_fps_guard_witness :
    (AnimatedSprite.new_with_fps [] (2 : ℚ) =
      some { sprites := [], frame_delay := 1 / 2, current_time := 0 }) ∧
    ({ sprites := [], frame_delay := 1 / 2, current_time := 0 } : AnimatedSprite).frame_delay
      = 1 / 2 :=
  ⟨by rw [AnimatedSprite.new_with_fps, if_neg (by norm_num)]; norm_num [AnimatedSprite.new],
   (new_with_fps_guard [] 2).2.1
     { sprites := [], frame_delay := 1 / 2, current_time := 0 }
     (by rw [AnimatedSprite.new_with_fps, if_neg (by norm_num)]; norm_num [AnimatedSprite.new])⟩

/-- C10: the menu starts at `selected = 0` with two actions; every render
call keeps `selected` within `[0, len)` (so indexing `actions[selected]`
never goes out of bounds), a `key_up` press at index 0 wraps to `len - 1`,
and a `key_down` press at the last index wraps to 0. -/
theorem menu_selected_bounds :
    (0 ≤ mainMenuInitialSelected ∧ mainMenuInitialSelected < mainMenuActionsLen) ∧
    (∀ (q : Bool) (esc sp rtn up dn : Option Bool) (len sel : ℤ),
      1 ≤ len → 0 ≤ sel → sel < len →
      0 ≤ menuSelectedAfterRender q esc sp rtn up dn len sel ∧
      menuSelectedAfterRender q esc sp rtn up dn len sel < len) ∧
    (∀ len : ℤ, 1 ≤ len →
      menuSelectedAfterRender false none none none (some true) none len 0 = len - 1 ∧
      menuSelectedAfterRender false none none none none (some true) len (len - 1) = 0) := by
  refine ⟨by decide, ?_, ?_⟩
  · intro q esc sp rtn up dn len sel hlen h0 hlt
    simp only [menuSelectedAfterRender]
    split_ifs <;> omega
  · intro len hlen
    constructor <;> simp [menuSelectedAfterRender]

/-- C10 witness: with two actions and nothing pressed, the selected index 0
stays within bounds. -/
theorem menu_selected_bounds_witness :
    0 ≤ menuSelectedAfterRender false none none none none none 2 0 ∧
    menuSelectedAfterRender false none none none none none 2 0 < 2 :=
  menu_selected_bounds.2.1 false none none none none none 2 0
    (by decide) (by decide) (by decide)

/-- A run of `RectBullet::update` calls with nonnegative elapsed times either
survives with `x` advanced by `BULLET_SPEED` times the total elapsed time (if
that keeps `x` within the screen) or is pruned to `none` (as soon as it does
not). -/
theorem rectBullet_updateSeq_char (w : ℚ) (dts : List ℚ) :
    ∀ b : RectBullet, (∀ d ∈ dts, 0 ≤ d) → b.rect.x ≤ w →
      (b.rect.x + BULLET_SPEED * dts.sum ≤ w →
        b.updateSeq w dts =
          some { rect := { b.rect with x := b.rect.x + BULLET_SPEED * dts.sum } }) ∧
      (w < b.rect.x + BULLET_SPEED * dts.sum → b.updateSeq w dts = none) := by
  induction dts with
  | nil =>
      intro b _ hx
      refine ⟨fun _ => ?_, fun hgt => ?_⟩
      · simp only [RectBullet.updateSeq, List.sum_nil, mul_zero, add_zero]
      · simp only [List.sum_nil, mul_zero, add_zero] at hgt
        exact absurd hx (not_le.mpr hgt)
  | cons d rest ih =>
      intro b hd hx
      have hd0 : 0 ≤ d := hd d (List.mem_cons_self _ _)
      have hdrest : ∀ d' ∈ rest, 0 ≤ d' := fun d' hd' => hd d' (List.mem_cons_of_mem _ hd')
      have hsum : 0 ≤ rest.sum := List.sum_nonneg hdrest
      by_cases hstep : b.rect.x + BULLET_SPEED * d > w
      · have hnone : b.update w d = none := by
          rw [RectBullet.update, if_pos hstep]
        refine ⟨fun hle => ?_, fun _ => ?_⟩
        · exfalso
          rw [List.sum_cons, mul_add, ← add_assoc] at hle
          have h240 : (0 : ℚ) ≤ BULLET_SPEED * rest.sum :=
            mul_nonneg (by norm_num [BULLET_SPEED]) hsum
          linarith
        · simp only [RectBullet.updateSeq, hnone]
      · push_neg at hstep
        have hsome : b.update w d =
            some { rect := { b.rect with x := b.rect.x + BULLET_SPEED * d } } := by
          rw [RectBullet.update, if_neg (not_lt.mpr hstep)]
        have hih := ih { rect := { b.rect with x := b.rect.x + BULLET_SPEED * d } } hdrest hstep
        refine ⟨fun hle => ?_, fun hgt => ?_⟩
        · rw [List.sum_cons, mul_add, ← add_assoc]
          rw [List.sum_cons, mul_add, ← add_assoc] at hle
          have hres := hih.1 hle
          simp only [RectBullet.updateSeq, hsome]
          exact hres
        · rw [List.sum_cons, mul_add, ← add_assoc] at hgt
          have hres := hih.2 hgt
          simp only [RectBullet.updateSeq, hsome]
          exact hres

/-- C8: every `RectBullet::update` advances `x` by `BULLET_SPEED * dt` and
returns `none` exactly when the new `x` exceeds the screen width; hence the
bullet spawned at `x = 0` on an 800-wide screen survives every nonnegative
update sequence totalling at most 3.3 seconds and is destroyed once the total
exceeds `800 / 240` seconds. -/
theorem rectBullet_straight_spec :
    (∀ (b : RectBullet) (w dt : ℚ),
      (b.update w dt = none ↔ b.rect.x + BULLET_SPEED * dt > w) ∧
      (∀ b', b.update w dt = some b' →
        b'.rect.x = b.rect.x + BULLET_SPEED * dt ∧ b'.rect.y = b.rect.y ∧
        b'.rect.w = b.rect.w ∧ b'.rect.h = b.rect.h)) ∧
    (∀ (y : ℚ) (dts : List ℚ), (∀ d ∈ dts, 0 ≤ d) →
      (dts.sum ≤ 33 / 10 →
        ∃ b', RectBullet.updateSeq
            { rect := { x := 0, y := y, w := BULLET_W, h := BULLET_H } } 800 dts = some b') ∧
      (dts.sum > 800 / 240 →
        RectBullet.updateSeq
            { rect := { x := 0, y := y, w := BULLET_W, h := BULLET_H } } 800 dts = none)) := by
  constructor
  · intro b w dt
    constructor
    · constructor
      · intro hnone
        by_contra hle
        push_neg at hle
        rw [RectBullet.update, if_neg (not_lt.mpr hle)] at hnone
        exact absurd hnone (by simp)
      · intro hgt
        rw [RectBullet.update, if_pos hgt]
    · intro b' hb'
      by_cases hgt : b.rect.x + BULLET_SPEED * dt > w
      · rw [RectBullet.update, if_pos hgt] at hb'
        exact absurd hb' (by simp)
      · rw [RectBullet.update, if_neg hgt, Option.some_inj] at hb'
        subst hb'
        exact ⟨rfl, rfl, rfl, rfl⟩
  · intro y dts hdts
    have hchar := rectBullet_updateSeq_char 800 dts
      { rect := { x := 0, y := y, w := BULLET_W, h := BULLET_H } } hdts (by norm_num)
    constructor
    · intro hle
      refine ⟨_, hchar.1 ?_⟩
      simp only [BULLET_SPEED]
      nlinarith
    · intro hgt
      refine hchar.2 ?_
      simp only [BULLET_SPEED]
      nlinarith [hgt]

/-- C8 witness: two one-second steps keep the bullet alive at `x = 480`; two
two-second steps total 4 s `> 800/240` s and destroy it. -/
theorem rectBullet_straight_spec_witness :
    RectBullet.updateSeq
        { rect := { x := 0, y := 0, w := BULLET_W, h := BULLET_H } } 800 [2, 2] = none :=
  (rectBullet_straight_spec.2 0 [2, 2] (by norm_num)).2 (by norm_num)

/-- C5 counterexample: on a 4-frame animation with duration 1 at time 0,
`add_time(-2 · d)` lands on frame 3 (the wrap-under reset goes to the last
frame), not on frame `(0 - 2) mod 4 = 2` as the claim's "for any integer k"
would require. -/
theorem add_time_frame_advance_counterexample :
    ¬ (((AnimatedSprite.new
          [{ tex := 0, src := { x := 0, y := 0, w := 1, h := 1 } },
           { tex := 1, src := { x := 0, y := 0, w := 1, h := 1 } },
           { tex := 2, src := { x := 0, y := 0, w := 1, h := 1 } },
           { tex := 3, src := { x := 0, y := 0, w := 1, h := 1 } }] 1).add_time
            ((-2) * 1)).current_frame : ℤ) =
      (((AnimatedSprite.new
          [{ tex := 0, src := { x := 0, y := 0, w := 1, h := 1 } },
           { tex := 1, src := { x := 0, y := 0, w := 1, h := 1 } },
           { tex := 2, src := { x := 0, y := 0, w := 1, h := 1 } },
           { tex := 3, src := { x := 0, y := 0, w := 1, h := 1 } }] 1).current_frame : ℤ)
        + (-2)) % 4 := by
  have h1 : ((AnimatedSprite.new
          [{ tex := 0, src := { x := 0, y := 0, w := 1, h := 1 } },
           { tex := 1, src := { x := 0, y := 0, w := 1, h := 1 } },
           { tex := 2, src := { x := 0, y := 0, w := 1, h := 1 } },
           { tex := 3, src := { x := 0, y := 0, w := 1, h := 1 } }] 1).add_time
            ((-2) * 1)).current_frame = 3 := by
    rw [AnimatedSprite.add_time]
    norm_num [AnimatedSprite.new, AnimatedSprite.current_frame, AnimatedSprite.frame_count]
    decide
  have h2 : (AnimatedSprite.new
          [{ tex := 0, src := { x := 0, y := 0, w := 1, h := 1 } },
           { tex := 1, src := { x := 0, y := 0, w := 1, h := 1 } },
           { tex := 2, src := { x := 0, y := 0, w := 1, h := 1 } },
           { tex := 3, src := { x := 0, y := 0, w := 1, h := 1 } }] 1).current_frame = 0 := by
    norm_num [AnimatedSprite.new, AnimatedSprite.current_frame, AnimatedSprite.frame_count]
  rw [h1, h2]
  decide

/-- C5 amended: with frame duration `d > 0`, at least one frame, and a
nonnegative elapsed time, `add_time(k·d)` advances the current frame index by
`k mod N` whenever the new elapsed time stays nonnegative; when the new
elapsed time would be negative (wrap-under, which covers `add_time(-ε)` from
time 0 for any `ε > 0`), the elapsed time resets to `(N-1)·d`, so the frame
index becomes `N - 1` regardless of `k`. -/
theorem add_time_frame_advance (a : AnimatedSprite)
    (hd : 0 < a.frame_delay) (hN : 1 ≤ a.frame_count) (ht : 0 ≤ a.current_time) :
    (∀ k : ℤ, 0 ≤ a.current_time + k * a.frame_delay →
      ((a.add_time (k * a.frame_delay)).current_frame : ℤ) =
        ((a.current_frame : ℤ) + k) % (a.frame_count : ℤ)) ∧
    (∀ dt : ℚ, a.current_time + dt < 0 →
      (a.add_time dt).current_frame = a.frame_count - 1) := by
  have hd0 : a.frame_delay ≠ 0 := ne_of_gt hd
  constructor
  · intro k hk
    have hnot : ¬ a.current_time + (k : ℚ) * a.frame_delay < 0 := not_lt.mpr hk
    have hstate : a.add_time ((k : ℚ) * a.frame_delay) =
        { a with current_time := a.current_time + (k : ℚ) * a.frame_delay } := by
      rw [AnimatedSprite.add_time]
      simp only [hnot, if_false]
    rw [hstate]
    simp only [AnimatedSprite.current_frame, AnimatedSprite.frame_count]
    have hdiv : (a.current_time + (k : ℚ) * a.frame_delay) / a.frame_delay =
        a.current_time / a.frame_delay + (k : ℚ) := by
      field_simp
    rw [hdiv, Int.floor_add_int]
    set m : ℤ := ⌊a.current_time / a.frame_delay⌋ with hm
    have hm0 : 0 ≤ m := Int.floor_nonneg.mpr (div_nonneg ht hd.le)
    have hmk0 : 0 ≤ m + k := by
      have : (0 : ℚ) ≤ (a.current_time + (k : ℚ) * a.frame_delay) / a.frame_delay :=
        div_nonneg hk hd.le
      have hfl : 0 ≤ ⌊(a.current_time + (k : ℚ) * a.frame_delay) / a.frame_delay⌋ :=
        Int.floor_nonneg.mpr this
      rwa [hdiv, Int.floor_add_int, ← hm] at hfl
    set N : ℕ := a.sprites.length with hNdef
    have hcast1 : (((m + k).toNat % N : ℕ) : ℤ) = (m + k) % (N : ℤ) := by
      rw [Int.natCast_mod, Int.toNat_of_nonneg hmk0]
    have hcast2 : ((m.toNat % N : ℕ) : ℤ) = m % (N : ℤ) := by
      rw [Int.natCast_mod, Int.toNat_of_nonneg hm0]
    rw [hcast1, hcast2]
    conv_lhs => rw [Int.add_emod]
    conv_rhs => rw [Int.add_emod]
    rw [Int.emod_emod_of_dvd _ dvd_rfl]
  · intro dt hdt
    have hstate : a.add_time dt =
        { a with current_time := ((a.frame_count - 1 : ℕ) : ℚ) * a.frame_delay } := by
      rw [AnimatedSprite.add_time]
      simp only [hdt, if_true]
    rw [hstate]
    simp only [AnimatedSprite.current_frame, AnimatedSprite.frame_count]
    have hN' : 1 ≤ a.sprites.length := hN
    have hdiv : ((a.sprites.length - 1 : ℕ) : ℚ) * a.frame_delay / a.frame_delay =
        ((a.sprites.length - 1 : ℕ) : ℚ) := by
      field_simp
    rw [hdiv, Int.floor_natCast, Int.toNat_natCast]
    exact Nat.mod_eq_of_lt (by omega)

/-- C5 witness: on a 3-frame animation with duration 1 at time 0, adding one
full frame duration advances the frame index to `(0 + 1) mod 3 = 1`. -/
theorem add_time_frame_advance_witness :
    (((AnimatedSprite.new
        [{ tex := 0, src := { x := 0, y := 0, w := 1, h := 1 } },
         { tex := 1, src := { x := 0, y := 0, w := 1, h := 1 } },
         { tex := 2, src := { x := 0, y := 0, w := 1, h := 1 } }] 1).add_time
          ((1 : ℤ) * 1)).current_frame : ℤ) =
      (((AnimatedSprite.new
        [{ tex := 0, src := { x := 0, y := 0, w := 1, h := 1 } },
         { tex := 1, src := { x := 0, y := 0, w := 1, h := 1 } },
         { tex := 2, src := { x := 0, y := 0, w := 1, h := 1 } }] 1).current_frame : ℤ)
        + 1) %
      ((AnimatedSprite.new
        [{ tex := 0, src := { x := 0, y := 0, w := 1, h := 1 } },
         { tex := 1, src := { x := 0, y := 0, w := 1, h := 1 } },
         { tex := 2, src := { x := 0, y := 0, w := 1, h := 1 } }] 1).frame_count : ℤ) :=
  (add_time_frame_advance _ (by norm_num [AnimatedSprite.new])
      (by norm_num [AnimatedSprite.new, AnimatedSprite.frame_count])
      (by norm_num [AnimatedSprite.new])).1 1
    (by norm_num [AnimatedSprite.new])

/-- C9: once `rect.x < -ASTEROID_SIDE`, the next `Asteroid::update` (with a
nonnegative elapsed time and velocity and random draws in `[0,1)`) respawns
the asteroid at `rect.x = w` with a fresh `y ∈ [0, h - ASTEROID_SIDE]`, a
fresh velocity in `[50, 150)` and a fresh animation rate
(`frame_delay = 1 / (20·rFps + 10)`, i.e. fps in `[10, 30)`). -/
theorem asteroid_respawn (a : Asteroid) (w h rFps rY rVel dt : ℚ)
    (hx : a.rect.x < -ASTEROID_SIDE) (hdt : 0 ≤ dt) (hvel : 0 ≤ a.vel)
    (hF0 : 0 ≤ rFps) (hF1 : rFps < 1) (hY0 : 0 ≤ rY) (hY1 : rY < 1)
    (hV0 : 0 ≤ rVel) (hV1 : rVel < 1) (hh : ASTEROID_SIDE ≤ h) :
    ∃ a', a.update w h rFps rY rVel dt = some a' ∧
      a'.rect.x = w ∧
      0 ≤ a'.rect.y ∧ a'.rect.y ≤ h - ASTEROID_SIDE ∧
      a'.rect.w = ASTEROID_SIDE ∧ a'.rect.h = ASTEROID_SIDE ∧
      50 ≤ a'.vel ∧ a'.vel < 150 ∧
      a'.sprite.frame_delay = 1 / (rFps * 20 + 10) := by
  have hmove : a.rect.x - dt * a.vel < -ASTEROID_SIDE := by
    nlinarith
  have habsF : |rFps| = rFps := abs_of_nonneg hF0
  have habsY : |rY| = rY := abs_of_nonneg hY0
  have habsV : |rVel| = rVel := abs_of_nonneg hV0
  have hfps : |rFps| * 20 + 10 ≠ 0 := by
    rw [habsF]
    positivity
  refine ⟨{ sprite := (a.sprite.add_time dt).set_frame_delay (1 / (|rFps| * 20 + 10)),
            rect := { x := w, y := |rY| * (h - ASTEROID_SIDE),
                      w := ASTEROID_SIDE, h := ASTEROID_SIDE },
            vel := |rVel| * 100 + 50 }, ?_, rfl, ?_, ?_, rfl, rfl, ?_, ?_, ?_⟩
  · rw [Asteroid.update]
    rw [if_pos hmove]
    rw [Asteroid.reset, AnimatedSprite.set_fps, if_neg hfps]
    rfl
  · dsimp only
    rw [habsY]
    exact mul_nonneg hY0 (by linarith)
  · dsimp only
    rw [habsY]
    nlinarith [mul_nonneg (by linarith : (0 : ℚ) ≤ 1 - rY)
      (by linarith : (0 : ℚ) ≤ h - ASTEROID_SIDE)]
  · dsimp only
    rw [habsV]
    nlinarith
  · dsimp only
    rw [habsV]
    nlinarith
  · dsimp only [AnimatedSprite.set_frame_delay]
    rw [habsF]

/-- C9 witness: a concrete stranded asteroid at `x = -97` respawns at the
right edge of an 800×600 screen. -/
theorem asteroid_respawn_witness :
    ∃ a', Asteroid.update
        { sprite := AnimatedSprite.new [] 1,
          rect := { x := -97, y := 0, w := 96, h := 96 }, vel := 0 }
        800 600 0 0 0 0 = some a' ∧
      a'.rect.x = 800 ∧
      0 ≤ a'.rect.y ∧ a'.rect.y ≤ 600 - ASTEROID_SIDE ∧
      a'.rect.w = ASTEROID_SIDE ∧ a'.rect.h = ASTEROID_SIDE ∧
      50 ≤ a'.vel ∧ a'.vel < 150 ∧
      a'.sprite.frame_delay = 1 / (0 * 20 + 10) :=
  asteroid_respawn
    { sprite := AnimatedSprite.new [] 1,
      rect := { x := -97, y := 0, w := 96, h := 96 }, vel := 0 }
    800 600 0 0 0 0
    (by norm_num [ASTEROID_SIDE]) (le_refl 0) (le_refl 0)
    (le_refl 0) (by norm_num) (le_refl 0) (by norm_num)
    (le_refl 0) (by norm_num) (by norm_num [ASTEROID_SIDE])

/-- C7: in the ship movement computation, held key pairs on an axis cancel
(zero delta); with exactly one key engaged on each axis the per-axis delta
has magnitude `PLAYER_SPEED * elapsed / √2`; concretely with left and up held
and `elapsed = 1`, both deltas equal `-(180 / √2) ≈ -127.28`. -/
theorem ship_movement_deltas (elapsed : ℝ) (he : 0 ≤ elapsed) :
    (∀ ku kd : Bool, shipDx ku kd true true elapsed = 0 ∧
      shipDx ku kd false false elapsed = 0) ∧
    (∀ kl kr : Bool, shipDy true true kl kr elapsed = 0 ∧
      shipDy false false kl kr elapsed = 0) ∧
    (∀ ku kd kl kr : Bool, xor ku kd = true → xor kl kr = true →
      |shipDx ku kd kl kr elapsed| = PLAYER_SPEED * elapsed / Real.sqrt 2 ∧
      |shipDy ku kd kl kr elapsed| = PLAYER_SPEED * elapsed / Real.sqrt 2) ∧
    (shipDx true false true false 1 = -(180 / Real.sqrt 2) ∧
      shipDy true false true false 1 = -(180 / Real.sqrt 2) ∧
      |(-(180 / Real.sqrt 2) : ℝ) - (-127.28)| < 1 / 100) := by
  have hs2 : (0 : ℝ) < Real.sqrt 2 := Real.sqrt_pos.mpr (by norm_num)
  have hmovedDiag : ∀ ku kd kl kr : Bool, diagonal ku kd kl kr = true →
      moved ku kd kl kr elapsed = PLAYER_SPEED * elapsed / Real.sqrt 2 := by
    intro ku kd kl kr hdiag
    rw [moved, hdiag, if_pos rfl]
    ring
  have hPS : (0 : ℝ) ≤ PLAYER_SPEED := by norm_num [PLAYER_SPEED]
  have hmovedNonneg : ∀ ku kd kl kr : Bool,
      0 ≤ moved ku kd kl kr elapsed := by
    intro ku kd kl kr
    rw [moved]
    rcases ite_eq_or_eq (diagonal ku kd kl kr = true) (1 / Real.sqrt 2) (1 : ℝ) with h | h <;>
        rw [h]
    · exact mul_nonneg (mul_nonneg (by positivity) hPS) he
    · exact mul_nonneg (mul_nonneg (by norm_num) hPS) he
  refine ⟨?_, ?_, ?_, ?_, ?_, ?_⟩
  · intro ku kd
    exact ⟨rfl, rfl⟩
  · intro kl kr
    exact ⟨rfl, rfl⟩
  · intro ku kd kl kr hud hlr
    have hdiag : diagonal ku kd kl kr = true := by
      rw [diagonal, hud, hlr]
      rfl
    have hmv := hmovedDiag ku kd kl kr hdiag
    have hnn := hmovedNonneg ku kd kl kr
    constructor
    · cases kl <;> cases kr
      · exact absurd hlr (by decide)
      · show |moved ku kd false true elapsed| = _
        rw [abs_of_nonneg hnn, hmv]
      · show |-(moved ku kd true false elapsed)| = _
        rw [abs_neg, abs_of_nonneg hnn, hmv]
      · exact absurd hlr (by decide)
    · cases ku <;> cases kd
      · exact absurd hud (by decide)
      · show |moved false true kl kr elapsed| = _
        rw [abs_of_nonneg hnn, hmv]
      · show |-(moved true false kl kr elapsed)| = _
        rw [abs_neg, abs_of_nonneg hnn, hmv]
      · exact absurd hud (by decide)
  · show -(moved true false true false 1) = -(180 / Real.sqrt 2)
    rw [moved]
    norm_num [diagonal, PLAYER_SPEED]
    ring
  · show -(moved true false true false 1) = -(180 / Real.sqrt 2)
    rw [moved]
    norm_num [diagonal, PLAYER_SPEED]
    ring
  · have hlb : (1.4142 : ℝ) < Real.sqrt 2 := (Real.lt_sqrt (by norm_num)).mpr (by norm_num)
    have hub : Real.sqrt 2 < 1.41422 := (Real.sqrt_lt' (by norm_num)).mpr (by norm_num)
    have hsqrt : Real.sqrt 2 * (180 / Real.sqrt 2) = 180 := by
      field_simp
    have ht0 : (0 : ℝ) < 180 / Real.sqrt 2 := by positivity
    have h1 : (180 : ℝ) / Real.sqrt 2 < 127.29 := by nlinarith [hsqrt, hlb, ht0]
    have h2 : (127.27 : ℝ) < 180 / Real.sqrt 2 := by nlinarith [hsqrt, hub, ht0]
    rw [abs_lt]
    constructor <;> linarith

/-- C7 witness: at `elapsed = 1` with left and up held, the horizontal delta
has magnitude `PLAYER_SPEED / √2`. -/
theorem ship_movement_deltas_witness :
    |shipDx true false true false 1| = PLAYER_SPEED * 1 / Real.sqrt 2 ∧
    |shipDy true false true false 1| = PLAYER_SPEED * 1 / Real.sqrt 2 :=
  (ship_movement_deltas 1 (by norm_num)).2.2.1 true false true false rfl rfl

/-- The loop presents exactly one frame per executed `Continue`
(`ViewAction::None`) directive and never on `Quit` or `ChangeView`. -/
theorem loopRun_present_count (s : List ViewAction) :
    ∀ u : Nat, (loopRun u s).count LoopCall.present =
      (executedActions s).count ViewAction.none := by
  induction s with
  | nil =>
      intro u
      rfl
  | cons a rest ih =>
      intro u
      cases a with
      | none =>
          simp only [loopRun, executedActions, List.count_cons, ih u]
          rfl
      | quit =>
          simp only [loopRun, executedActions, List.count_cons]
          rfl
      | changeView x =>
          simp only [loopRun, executedActions, List.count_cons, ih x]
          rfl

/-- C1: when the active view `v` returns `ChangeView w`, the loop trace for
that tick is `pump, render v, pause v, resume w` — `pause` on the outgoing
view, then `resume` on the new one, both before any later `render w` — with
no `present` in between; globally, `present` is called exactly once per
executed `Continue` directive. -/
theorem loop_replace_protocol (v w : Nat) (rest : List ViewAction) (hvw : v ≠ w) :
    (loopRun v (ViewAction.changeView w :: rest)).get? 1 = some (LoopCall.render v) ∧
    (loopRun v (ViewAction.changeView w :: rest)).get? 2 = some (LoopCall.pause v) ∧
    (loopRun v (ViewAction.changeView w :: rest)).get? 3 = some (LoopCall.resume w) ∧
    (∀ m, (loopRun v (ViewAction.changeView w :: rest)).get? m =
      some (LoopCall.render w) → 3 < m) ∧
    (loopRun v (ViewAction.changeView w :: rest)).get? 2 ≠ some LoopCall.present ∧
    (loopRun v (ViewAction.changeView w :: rest)).get? 3 ≠ some LoopCall.present ∧
    (∀ (u : Nat) (s : List ViewAction),
      (loopRun u s).count LoopCall.present = (executedActions s).count ViewAction.none) := by
  refine ⟨rfl, rfl, rfl, ?_, by simp [loopRun], by simp [loopRun],
    fun u s => loopRun_present_count s u⟩
  intro m hm
  match m with
  | 0 => simp [loopRun] at hm
  | 1 =>
      simp only [loopRun, List.get?] at hm
      rw [Option.some_inj] at hm
      injection hm with hvw'
      exact absurd hvw' hvw
  | 2 => simp [loopRun] at hm
  | 3 => simp [loopRun] at hm
  | (n + 4) => omega

/-- C1 witness: replacing view 0 by view 1 pauses 0 and then resumes 1. -/
theorem loop_replace_protocol_witness :
    (loopRun 0 [ViewAction.changeView 1]).get? 2 = some (LoopCall.pause 0) ∧
    (loopRun 0 [ViewAction.changeView 1]).get? 3 = some (LoopCall.resume 1) :=
  ⟨(loop_replace_protocol 0 1 [] (by decide)).2.1,
   (loop_replace_protocol 0 1 [] (by decide)).2.2.1⟩

/-- Processing an event that does not mention key `k` leaves `k`'s held-state
and edge untouched. -/
theorem processEvent_preserve (os : Nat × Nat) (s : Events) (e : SdlEvent) (k : Key)
    (hd : e ≠ SdlEvent.keyDown k) (hu : e ≠ SdlEvent.keyUp k) :
    (Events.processEvent os s e).held k = s.held k ∧
    (Events.processEvent os s e).now.keyEdge k = s.now.keyEdge k := by
  cases e with
  | keyDown q =>
      have hq : k ≠ q := fun h => hd (by rw [h])
      by_cases hheld : s.held q = false
      · simp [Events.processEvent, hheld, Function.update_apply, hq]
      · simp [Events.processEvent, hheld, Function.update_apply, hq]
  | keyUp q =>
      have hq : k ≠ q := fun h => hu (by rw [h])
      simp [Events.processEvent, Function.update_apply, hq]
  | windowResized => exact ⟨rfl, rfl⟩
  | quit => exact ⟨rfl, rfl⟩
  | other => exact ⟨rfl, rfl⟩

/-- While `k` is already held and no key-up for `k` arrives, a batch of
events keeps `k` held and leaves `k`'s edge untouched (repeated key-down
events produce no edge). -/
theorem foldl_no_keyup_preserve (os : Nat × Nat) (k : Key) (b : List SdlEvent) :
    ∀ s : Events, s.held k = true → SdlEvent.keyUp k ∉ b →
      ((b.foldl (Events.processEvent os) s).held k = true ∧
       (b.foldl (Events.processEvent os) s).now.keyEdge k = s.now.keyEdge k) := by
  induction b with
  | nil =>
      intro s hheld _
      exact ⟨hheld, rfl⟩
  | cons e rest ih =>
      intro s hheld hnotin
      have hnotin' : SdlEvent.keyUp k ∉ rest := fun h => hnotin (List.mem_cons_of_mem _ h)
      have hue : e ≠ SdlEvent.keyUp k := fun h => hnotin (h ▸ List.mem_cons_self _ _)
      by_cases hde : e = SdlEvent.keyDown k
      · subst hde
        have hstep : (Events.processEvent os s (SdlEvent.keyDown k)).held k = true ∧
            (Events.processEvent os s (SdlEvent.keyDown k)).now.keyEdge k =
              s.now.keyEdge k := by
          simp [Events.processEvent, hheld, Function.update_apply]
        obtain ⟨hstep1, hstep2⟩ := hstep
        have := ih (Events.processEvent os s (SdlEvent.keyDown k)) hstep1 hnotin'
        exact ⟨this.1, by rw [List.foldl_cons] at *; rw [this.2, hstep2]⟩
      · obtain ⟨hp1, hp2⟩ := processEvent_preserve os s e k hde hue
        have := ih (Events.processEvent os s e) (by rw [hp1]; exact hheld) hnotin'
        exact ⟨this.1, by rw [List.foldl_cons, this.2, hp2]⟩

/-- A batch containing a key-down for `k` (and no key-up for `k`), starting
from not-held, ends with `k` held and a `some true` edge: the edge appears
exactly at the transition from not-held to held. -/
theorem foldl_press (os : Nat × Nat) (k : Key) (b : List SdlEvent) :
    ∀ s : Events, s.held k = false → SdlEvent.keyUp k ∉ b → SdlEvent.keyDown k ∈ b →
      ((b.foldl (Events.processEvent os) s).held k = true ∧
       (b.foldl (Events.processEvent os) s).now.keyEdge k = some true) := by
  induction b with
  | nil =>
      intro s _ _ hmem
      exact absurd hmem (List.not_mem_nil _)
  | cons e rest ih =>
      intro s hheld hnotin hmem
      have hnotin' : SdlEvent.keyUp k ∉ rest := fun h => hnotin (List.mem_cons_of_mem _ h)
      have hue : e ≠ SdlEvent.keyUp k := fun h => hnotin (h ▸ List.mem_cons_self _ _)
      by_cases hde : e = SdlEvent.keyDown k
      · subst hde
        have hstep1 : (Events.processEvent os s (SdlEvent.keyDown k)).held k = true := by
          simp [Events.processEvent, hheld, Function.update_apply]
        have hstep2 : (Events.processEvent os s (SdlEvent.keyDown k)).now.keyEdge k =
            some true := by
          simp [Events.processEvent, hheld, Function.update_apply]
        have := foldl_no_keyup_preserve os k rest
          (Events.processEvent os s (SdlEvent.keyDown k)) hstep1 hnotin'
        exact ⟨this.1, by rw [List.foldl_cons, this.2, hstep2]⟩
      · have hmem' : SdlEvent.keyDown k ∈ rest := by
          rcases List.mem_cons.mp hmem with h | h
          · exact absurd h.symm hde
          · exact h
        obtain ⟨hp1, hp2⟩ := processEvent_preserve os s e k (fun h => hde h) hue
        have := ih (Events.processEvent os s e) (by rw [hp1]; exact hheld) hnotin' hmem'
        exact ⟨this.1, by rw [List.foldl_cons]; exact this.2⟩

/-- A batch with no key event for `k` at all leaves `k`'s held-state and edge
untouched. -/
theorem foldl_no_key_event_preserve (os : Nat × Nat) (k : Key) (b : List SdlEvent) :
    ∀ s : Events, lastKeyEdge k b = none →
      ((b.foldl (Events.processEvent os) s).held k = s.held k ∧
       (b.foldl (Events.processEvent os) s).now.keyEdge k = s.now.keyEdge k) := by
  induction b with
  | nil =>
      intro s _
      exact ⟨rfl, rfl⟩
  | cons e rest ih =>
      intro s hnone
      cases hrest : lastKeyEdge k rest with
      | some v => simp [lastKeyEdge, hrest] at hnone
      | none =>
          simp only [lastKeyEdge, hrest] at hnone
          have hd : e ≠ SdlEvent.keyDown k := by
            intro h
            subst h
            simp [keyEdgeOf] at hnone
          have hu : e ≠ SdlEvent.keyUp k := by
            intro h
            subst h
            simp [keyEdgeOf] at hnone
          obtain ⟨hp1, hp2⟩ := processEvent_preserve os s e k hd hu
          have := ih (Events.processEvent os s e) hrest
          exact ⟨by rw [List.foldl_cons, this.1, hp1],
                 by rw [List.foldl_cons, this.2, hp2]⟩

/-- A batch whose last key event for `k` is a key-up ends with `k` not held
and a `some false` edge (key-up sets the edge unconditionally). -/
theorem foldl_release (os : Nat × Nat) (k : Key) (b : List SdlEvent) :
    ∀ s : Events, lastKeyEdge k b = some false →
      ((b.foldl (Events.processEvent os) s).held k = false ∧
       (b.foldl (Events.processEvent os) s).now.keyEdge k = some false) := by
  induction b with
  | nil =>
      intro s h
      exact absurd h (by simp [lastKeyEdge])
  | cons e rest ih =>
      intro s hlast
      cases hrest : lastKeyEdge k rest with
      | some v =>
          simp only [lastKeyEdge, hrest, Option.some_inj] at hlast
          subst hlast
          exact ih (Events.processEvent os s e) hrest
      | none =>
          simp only [lastKeyEdge, hrest] at hlast
          have he : e = SdlEvent.keyUp k := by
            cases e with
            | keyDown q =>
                by_cases hq : q = k
                · subst hq; simp [keyEdgeOf] at hlast
                · simp [keyEdgeOf, hq] at hlast
            | keyUp q =>
                by_cases hq : q = k
                · subst hq; rfl
                · simp [keyEdgeOf, hq] at hlast
            | windowResized => simp [keyEdgeOf] at hlast
            | quit => simp [keyEdgeOf] at hlast
            | other => simp [keyEdgeOf] at hlast
          subst he
          have hstep1 : (Events.processEvent os s (SdlEvent.keyUp k)).held k = false := by
            simp [Events.processEvent, Function.update_apply]
          have hstep2 : (Events.processEvent os s (SdlEvent.keyUp k)).now.keyEdge k =
              some false := by
            simp [Events.processEvent, Function.update_apply]
          have := foldl_no_key_event_preserve os k rest
            (Events.processEvent os s (SdlEvent.keyUp k)) hrest
          exact ⟨by rw [List.foldl_cons, this.1, hstep1],
                 by rw [List.foldl_cons, this.2, hstep2]⟩

/-- C2: holding a key across three polls — a press batch (some key-downs, no
key-up), an intermediate batch of arbitrary repeated key-downs, and a release
batch whose last event for the key is a key-up — yields edge `some true`
exactly at the press poll, `none` at the intermediate poll, and `some false`
at the release poll, while the held-state is true exactly between press and
release; and any pump whose batch has no event for the key leaves its edge at
`none` (the snapshot is rebuilt from scratch each pump). -/
theorem events_hold_edge_protocol (k : Key) (os1 os2 os3 : Nat × Nat) (s0 : Events)
    (b1 b2 b3 : List SdlEvent)
    (h0 : s0.held k = false)
    (h1mem : SdlEvent.keyDown k ∈ b1) (h1up : SdlEvent.keyUp k ∉ b1)
    (h2up : SdlEvent.keyUp k ∉ b2)
    (h3 : lastKeyEdge k b3 = some false) :
    ((s0.pump os1 b1).now.keyEdge k = some true ∧ (s0.pump os1 b1).held k = true) ∧
    (((s0.pump os1 b1).pump os2 b2).now.keyEdge k = none ∧
      ((s0.pump os1 b1).pump os2 b2).held k = true) ∧
    ((((s0.pump os1 b1).pump os2 b2).pump os3 b3).now.keyEdge k = some false ∧
      (((s0.pump os1 b1).pump os2 b2).pump os3 b3).held k = false) ∧
    (∀ (s : Events) (os : Nat × Nat) (b : List SdlEvent), lastKeyEdge k b = none →
      (s.pump os b).now.keyEdge k = none) := by
  have hs1 := foldl_press os1 k b1 { s0 with now := ImmediateEvents.new } h0 h1up h1mem
  have hs2 := foldl_no_keyup_preserve os2 k b2
    { s0.pump os1 b1 with now := ImmediateEvents.new } hs1.1 h2up
  have hs3 := foldl_release os3 k b3
    { (s0.pump os1 b1).pump os2 b2 with now := ImmediateEvents.new } h3
  refine ⟨⟨hs1.2, hs1.1⟩, ⟨hs2.2, hs2.1⟩, ⟨hs3.2, hs3.1⟩, ?_⟩
  intro s os b hb
  have := foldl_no_key_event_preserve os k b { s with now := ImmediateEvents.new } hb
  exact this.2

/-- C2 witness: pressing Up, holding it with repeats, then releasing it
produces the edge sequence `some true`, `none`, `some false` with held-state
true exactly in between. -/
theorem events_hold_edge_protocol_witness :
    ((Events.new.pump (800, 600) [SdlEvent.keyDown Key.up]).now.keyEdge Key.up = some true ∧
      (Events.new.pump (800, 600) [SdlEvent.keyDown Key.up]).held Key.up = true) ∧
    (((Events.new.pump (800, 600) [SdlEvent.keyDown Key.up]).pump (800, 600)
        [SdlEvent.keyDown Key.up, SdlEvent.keyDown Key.up]).now.keyEdge Key.up = none ∧
      ((Events.new.pump (800, 600) [SdlEvent.keyDown Key.up]).pump (800, 600)
        [SdlEvent.keyDown Key.up, SdlEvent.keyDown Key.up]).held Key.up = true) ∧
    ((((Events.new.pump (800, 600) [SdlEvent.keyDown Key.up]).pump (800, 600)
        [SdlEvent.keyDown Key.up, SdlEvent.keyDown Key.up]).pump (800, 600)
        [SdlEvent.keyUp Key.up]).now.keyEdge Key.up = some false ∧
      (((Events.new.pump (800, 600) [SdlEvent.keyDown Key.up]).pump (800, 600)
        [SdlEvent.keyDown Key.up, SdlEvent.keyDown Key.up]).pump (800, 600)
        [SdlEvent.keyUp Key.up]).held Key.up = false) ∧
    (∀ (s : Events) (os : Nat × Nat) (b : List SdlEvent),
      lastKeyEdge Key.up b = none → (s.pump os b).now.keyEdge Key.up = none) :=
  events_hold_edge_protocol Key.up (800, 600) (800, 600) (800, 600) Events.new
    [SdlEvent.keyDown Key.up] [SdlEvent.keyDown Key.up, SdlEvent.keyDown Key.up]
    [SdlEvent.keyUp Key.up]
    rfl (by decide) (by decide) (by decide) (by decide)

end Arcade
